import Mathlib

/-!
Verification of the constraint-solver-backed split algorithm of the layout
engine (src/src/layout/layout.rs).

The Rust code is shallowly embedded: the constraint compiler
(configure_area, configure_variable_constraints, configure_flex_constraints,
configure_constraints, configure_fill_constraints) is translated into Lean
functions producing a list of weighted linear relations over solver
variables, and the solver driver's rounding step (changes_to_rects) into a
pure function from variable assignments to rectangles.  The external
cassowary solver is abstracted as an assignment oracle; its documented
guarantee (required constraints are always satisfied) enters theorems as an
explicit hypothesis.  Machine floats are modelled by rationals.
-/

namespace Ratatui

/-- Solver variables, identified by their allocation index (the source
allocates `2 * N + 2` fresh cassowary variables in order). -/
abbrev Var := Nat

/-- An affine expression over solver variables: a list of (coefficient,
variable) terms plus a constant.  Models cassowary `Expression`. -/
structure AffExpr where
  terms : List (ℚ × Var)
  const : ℚ
deriving DecidableEq, Repr

/-- Value of an affine expression under an assignment. -/
def AffExpr.eval (e : AffExpr) (a : Var → ℚ) : ℚ :=
  (e.terms.map fun t => t.1 * a t.2).sum + e.const

/-- The expression consisting of a single variable. -/
def varE (v : Var) : AffExpr := ⟨[(1, v)], 0⟩

/-- A constant expression. -/
def constE (c : ℚ) : AffExpr := ⟨[], c⟩

/-- Scaling of an expression by a rational constant, as in
`area.size() * f64::from(p) / 100.0`. -/
def AffExpr.scale (c : ℚ) (e : AffExpr) : AffExpr :=
  ⟨e.terms.map fun t => (c * t.1, t.2), c * e.const⟩

/-- Relation of a weighted solver constraint (cassowary WeightedRelation). -/
inductive Rel where
  | le
  | ge
  | eq
deriving DecidableEq, Repr

/-- Truth of a relation between two rational values. -/
def Rel.holds : Rel → ℚ → ℚ → Prop
  | .le, x, y => x ≤ y
  | .ge, x, y => y ≤ x
  | .eq, x, y => x = y

instance (r : Rel) (x y : ℚ) : Decidable (r.holds x y) :=
  match r with
  | .le => inferInstanceAs (Decidable (x ≤ y))
  | .ge => inferInstanceAs (Decidable (y ≤ x))
  | .eq => inferInstanceAs (Decidable (x = y))

/-- A weighted linear constraint `lhs REL(strength) rhs` handed to the
solver (cassowary `Constraint`). -/
structure SolverCon where
  lhs : AffExpr
  rel : Rel
  strength : ℚ
  rhs : AffExpr
deriving DecidableEq, Repr

/-- An assignment satisfies a solver constraint when the relation holds
between the evaluated sides. -/
def SolverCon.holds (c : SolverCon) (a : Var → ℚ) : Prop :=
  c.rel.holds (c.lhs.eval a) (c.rhs.eval a)

instance (c : SolverCon) (a : Var → ℚ) : Decidable (c.holds a) :=
  inferInstanceAs (Decidable (c.rel.holds _ _))

/-- Modelled from the spec: the solver's strength anchor REQUIRED, inherited
from the cassowary crate (the anchors form a descending geometric scale). -/
def REQUIRED : ℚ := 1001001000

/-- Modelled from the spec: the solver's strength anchor STRONG. -/
def STRONG : ℚ := 1000000

/-- Modelled from the spec: the solver's strength anchor MEDIUM. -/
def MEDIUM : ℚ := 1000

/-- Modelled from the spec: the solver's strength anchor WEAK. -/
def WEAK : ℚ := 1

namespace strengths

/-- The strength to apply to Spacers to ensure that their sizes are equal. -/
def SPACER_SIZE_EQ : ℚ := REQUIRED - 1

/-- The strength to apply to Min inequality constraints. -/
def MIN_SIZE_GE : ℚ := STRONG * 10

/-- The strength to apply to Max inequality constraints. -/
def MAX_SIZE_LE : ℚ := STRONG * 10

/-- The strength to apply to Length constraints. -/
def LENGTH_SIZE_EQ : ℚ := STRONG / 10

/-- The strength to apply to Percentage constraints. -/
def PERCENTAGE_SIZE_EQ : ℚ := MEDIUM * 10

/-- The strength to apply to Ratio constraints. -/
def RATIO_SIZE_EQ : ℚ := MEDIUM

/-- The strength to apply to Max equality constraints. -/
def MAX_SIZE_EQ : ℚ := MEDIUM / 10

/-- The strength to apply to Min equality constraints. -/
def MIN_SIZE_EQ : ℚ := MEDIUM / 10

/-- The strength to apply to Fill growing constraints. -/
def FILL_GROW : ℚ := WEAK * 10

/-- The strength to apply to growing constraints. -/
def GROW : ℚ := WEAK

/-- The strength to apply to Spacer growing constraints. -/
def SPACE_GROW : ℚ := WEAK / 10

end strengths

open strengths

/-- A container used by the solver inside split: a pair of solver variables.
The source's second field is named `end` (a Lean keyword), rendered `stop`. -/
structure Element where
  start : Var
  stop : Var
deriving DecidableEq, Repr

/-- The size of an element as a linear expression, `end - start`. -/
def Element.size (e : Element) : AffExpr := ⟨[(1, e.stop), (-1, e.start)], 0⟩

/-- Weighted `size <= u`. -/
def Element.has_max_size (e : Element) (size : ℕ) (strength : ℚ) : SolverCon :=
  ⟨e.size, .le, strength, constE size⟩

/-- Weighted `size >= u`. -/
def Element.has_min_size (e : Element) (size : ℕ) (strength : ℚ) : SolverCon :=
  ⟨e.size, .ge, strength, constE size⟩

/-- Weighted `size = u` for an integer target. -/
def Element.has_int_size (e : Element) (size : ℕ) (strength : ℚ) : SolverCon :=
  ⟨e.size, .eq, strength, constE size⟩

/-- Weighted `size = expr`. -/
def Element.has_size (e : Element) (size : AffExpr) (strength : ℚ) : SolverCon :=
  ⟨e.size, .eq, strength, size⟩

/-- Near-required `size = 0` at strength `REQUIRED - 1`. -/
def Element.is_empty (e : Element) : SolverCon :=
  ⟨e.size, .eq, REQUIRED - 1, constE 0⟩

/-- Modelled from the spec: the host-supplied Rect value type, four
non-negative 16-bit integers.  Fields are naturals here; the derived
accessors follow the spec. -/
structure Rect where
  x : ℕ
  y : ℕ
  width : ℕ
  height : ℕ
deriving DecidableEq, Repr

/-- Modelled from the spec: `right = x + width`. -/
def Rect.right (r : Rect) : ℕ := r.x + r.width

/-- Modelled from the spec: `bottom = y + height`. -/
def Rect.bottom (r : Rect) : ℕ := r.y + r.height

/-- Modelled from the spec: the host-supplied Margin value type. -/
structure Margin where
  horizontal : ℕ
  vertical : ℕ
deriving DecidableEq, Repr

/-- Modelled from the spec: the margin is subtracted from all four sides of
the area before solving (natural subtraction truncates at zero). -/
def Rect.inner (r : Rect) (m : Margin) : Rect :=
  ⟨r.x + m.horizontal, r.y + m.vertical,
   r.width - 2 * m.horizontal, r.height - 2 * m.vertical⟩

/-- The axis along which the area is subdivided. -/
inductive Direction where
  | Horizontal
  | Vertical
deriving DecidableEq, Repr

/-- The flex policy distributing unclaimed axis length. -/
inductive Flex where
  | Legacy
  | Start
  | Center
  | End
  | SpaceBetween
  | SpaceAround
deriving DecidableEq, Repr

/-- Whether the flex policy is the backwards-compatible one. -/
def Flex.is_legacy : Flex → Bool
  | .Legacy => true
  | _ => false

/-- The sizing constraint variants. -/
inductive Constraint where
  | Min (u : ℕ)
  | Max (u : ℕ)
  | Length (u : ℕ)
  | Percentage (p : ℕ)
  | Ratio (num den : ℕ)
  | Fill (w : ℕ)
deriving DecidableEq, Repr

/-- Whether the constraint is a Fill. -/
def Constraint.is_fill : Constraint → Bool
  | .Fill _ => true
  | _ => false

/-- Whether the constraint is a Min. -/
def Constraint.is_min : Constraint → Bool
  | .Min _ => true
  | _ => false

/-- The layout configuration value (cache key alongside the area). -/
structure Layout where
  direction : Direction
  constraints : List Constraint
  margin : Margin
  flex : Flex
  spacing : ℕ
deriving DecidableEq, Repr

/-- Adjacent disjoint pairs of a list, as itertools `tuples::<(_, _)>()`
produces them (an incomplete trailing pair is discarded). -/
def pairs {α : Type} : List α → List (α × α)
  | a :: b :: rest => (a, b) :: pairs rest
  | _ => []

/-- Adjacent overlapping pairs of a list, as itertools `tuple_windows`. -/
def windows2 {α : Type} : List α → List (α × α)
  | a :: b :: rest => (a, b) :: windows2 (b :: rest)
  | _ => []

/-- All unordered pairs in order, as itertools `tuple_combinations`. -/
def combos2 {α : Type} : List α → List (α × α)
  | [] => []
  | a :: rest => (rest.map fun b => (a, b)) ++ combos2 rest

/-- The number of solver variables allocated for a solve:
`self.constraints.len() * 2 + 2`. -/
def Layout.numVars (l : Layout) : ℕ := l.constraints.length * 2 + 2

/-- The allocated variables in order. -/
def Layout.variables (l : Layout) : List Var := List.range l.numVars

/-- An element from a pair of variables (the `From<(Variable, Variable)>`
conversion). -/
def elemOfPair (p : Var × Var) : Element := ⟨p.1, p.2⟩

/-- The spacer elements: the variables paired up disjointly. -/
def Layout.spacerEls (l : Layout) : List Element :=
  (pairs l.variables).map elemOfPair

/-- The segment elements: the variables with the first skipped, paired up
disjointly. -/
def Layout.segmentEls (l : Layout) : List Element :=
  (pairs (l.variables.drop 1)).map elemOfPair

/-- The synthetic whole-area element, from the first and last variable. -/
def Layout.areaSizeEl (l : Layout) : Element :=
  ⟨l.variables.headD 0, l.variables.getLastD 0⟩

/-- The active-axis endpoints of the inner area chosen by the direction,
as rationals (the source converts to f64). -/
def Layout.axisBounds (l : Layout) (area : Rect) : ℚ × ℚ :=
  let inner := area.inner l.margin
  match l.direction with
  | .Horizontal => ((inner.x : ℚ), (inner.right : ℚ))
  | .Vertical => ((inner.y : ℚ), (inner.bottom : ℚ))

/-- The two required area anchors. -/
def configure_area (area : Element) (area_start area_end : ℚ) : List SolverCon :=
  [⟨varE area.start, .eq, REQUIRED, constE area_start⟩,
   ⟨varE area.stop, .eq, REQUIRED, constE area_end⟩]

/-- Required range and ordering constraints on all variables (the source
parameter is named `variables`, a reserved word here). -/
def configure_variable_constraints (vars : List Var) (area : Element) :
    List SolverCon :=
  (vars.flatMap fun v =>
    [⟨varE v, .ge, REQUIRED, varE area.start⟩,
     ⟨varE v, .le, REQUIRED, varE area.stop⟩])
  ++ (windows2 vars).map fun p => ⟨varE p.1, .le, REQUIRED, varE p.2⟩

/-- Rust `slice.get(a..b)`: `None` unless `a <= b <= len`. -/
def sliceGet {α : Type} (l : List α) (a b : ℕ) : Option (List α) :=
  if a ≤ b ∧ b ≤ l.length then some ((l.drop a).take (b - a)) else none

/-- The spacer constraints of the flex policy
(`configure_flex_constraints` in the source). -/
def configure_flex_constraints (area : Element) (spacers : List Element)
    (flex : Flex) (spacing : ℕ) : List SolverCon :=
  let spacers_except_first_and_last := (sliceGet spacers 1 (spacers.length - 1)).getD []
  let spacingQ : ℚ := spacing
  match flex with
  | .Legacy =>
      spacers_except_first_and_last.map
        (fun spacer => spacer.has_size (constE spacingQ) SPACER_SIZE_EQ)
      ++ (match spacers.head?, spacers.getLast? with
          | some first, some last => [first.is_empty, last.is_empty]
          | _, _ => [])
  | .SpaceAround =>
      (combos2 spacers).map (fun p => p.1.has_size p.2.size SPACER_SIZE_EQ)
      ++ spacers.map (fun spacer => spacer.has_size area.size SPACE_GROW)
  | .SpaceBetween =>
      (combos2 spacers_except_first_and_last).map
        (fun p => p.1.has_size p.2.size SPACER_SIZE_EQ)
      ++ spacers.map (fun spacer => spacer.has_size area.size SPACE_GROW)
      ++ (match spacers.head?, spacers.getLast? with
          | some first, some last => [first.is_empty, last.is_empty]
          | _, _ => [])
  | .Start =>
      spacers_except_first_and_last.map
        (fun spacer => spacer.has_size (constE spacingQ) SPACER_SIZE_EQ)
      ++ (match spacers.head?, spacers.getLast? with
          | some first, some last =>
              [first.is_empty, last.has_size area.size GROW]
          | _, _ => [])
  | .Center =>
      spacers_except_first_and_last.map
        (fun spacer => spacer.has_size (constE spacingQ) SPACER_SIZE_EQ)
      ++ (match spacers.head?, spacers.getLast? with
          | some first, some last =>
              [first.has_size area.size GROW, last.has_size area.size GROW,
               first.has_size last.size SPACER_SIZE_EQ]
          | _, _ => [])
  | .End =>
      spacers_except_first_and_last.map
        (fun spacer => spacer.has_size (constE spacingQ) SPACER_SIZE_EQ)
      ++ (match spacers.head?, spacers.getLast? with
          | some first, some last =>
              [last.is_empty, first.has_size area.size GROW]
          | _, _ => [])

/-- The block of size constraints emitted for one (constraint, segment)
pair (the match arm bodies of `configure_constraints`). -/
def size_constraints (area : Element) (flex : Flex)
    (cs : Constraint × Element) : List SolverCon :=
  match cs.1 with
  | .Max m =>
      [cs.2.has_max_size m MAX_SIZE_LE, cs.2.has_int_size m MAX_SIZE_EQ]
  | .Min m =>
      cs.2.has_min_size m MIN_SIZE_GE ::
        (if flex.is_legacy then [cs.2.has_int_size m MIN_SIZE_EQ]
         else [cs.2.has_size area.size FILL_GROW])
  | .Length length => [cs.2.has_int_size length LENGTH_SIZE_EQ]
  | .Percentage p =>
      [cs.2.has_size (AffExpr.scale ((p : ℚ) / 100) area.size) PERCENTAGE_SIZE_EQ]
  | .Ratio num den =>
      -- avoid division by zero by using 1 when denominator is 0
      [cs.2.has_size (AffExpr.scale ((num : ℚ) / ((max den 1 : ℕ) : ℚ)) area.size)
        RATIO_SIZE_EQ]
  | .Fill _ => [cs.2.has_size area.size FILL_GROW]

/-- One block of size constraints per (constraint, segment) pair. -/
def configure_constraints (area : Element) (segments : List Element)
    (constraints : List Constraint) (flex : Flex) : List SolverCon :=
  (constraints.zip segments).flatMap (size_constraints area flex)

/-- The scaling factor used by the fill-proportionality constraints
(`Fill` weights clamped below by `1e-6`, `Min` counted as weight 1; other
variants are unreachable behind the filter). -/
def scaling_factor : Constraint → ℚ
  | .Fill scale => max (scale : ℚ) (1 / 1000000)
  | .Min _ => 1
  | _ => 1

/-- Make every Fill constraint proportionally equal to each other
(`configure_fill_constraints` in the source). -/
def configure_fill_constraints (segments : List Element)
    (constraints : List Constraint) (flex : Flex) : List SolverCon :=
  (combos2 ((constraints.zip segments).filter
      fun cs => cs.1.is_fill || (!flex.is_legacy && cs.1.is_min))).map
    fun p =>
      ⟨AffExpr.scale (scaling_factor p.2.1) p.1.2.size, .eq, GROW,
       AffExpr.scale (scaling_factor p.1.1) p.2.2.size⟩

/-- Every weighted linear constraint `try_split` adds to the solver, in the
order the source adds them. -/
def layoutConstraints (l : Layout) (area : Rect) : List SolverCon :=
  configure_area l.areaSizeEl (l.axisBounds area).1 (l.axisBounds area).2
  ++ configure_variable_constraints l.variables l.areaSizeEl
  ++ configure_flex_constraints l.areaSizeEl l.spacerEls l.flex l.spacing
  ++ configure_constraints l.areaSizeEl l.segmentEls l.constraints l.flex
  ++ configure_fill_constraints l.segmentEls l.constraints l.flex
  ++ (if l.flex.is_legacy then []
      else (windows2 l.segmentEls).map fun p => p.1.has_size p.2.size (WEAK / 100))

/-- Rust `f64::round`: round half away from zero. -/
def rustRound (v : ℚ) : ℤ :=
  if 0 ≤ v then ⌊v + 1 / 2⌋ else -⌊-v + 1 / 2⌋

/-- Rust `as u16` on a rounded float: saturating conversion into
`[0, 65535]`. -/
def u16cast (i : ℤ) : ℕ := (min (max i 0) 65535).toNat

/-- The rounded 16-bit value of a variable; a variable the solver did not
report is treated as `0.0`. -/
def roundVal (changes : Var → Option ℚ) (v : Var) : ℕ :=
  u16cast (rustRound ((changes v).getD 0))

/-- The output rectangle of one element (the closure body inside
`changes_to_rects`): active axis from the rounded endpoints with a
saturating size, orthogonal axis copied from the inner area. -/
def elementRect (changes : Var → Option ℚ) (area : Rect)
    (direction : Direction) (e : Element) : Rect :=
  let start := roundVal changes e.start
  let stop := roundVal changes e.stop
  let size := stop - start
  match direction with
  | .Horizontal => ⟨start, area.y, size, area.height⟩
  | .Vertical => ⟨area.x, start, area.width, size⟩

/-- Conversion of the solver's variable assignments into rectangles. -/
def changes_to_rects (changes : Var → Option ℚ) (elements : List Element)
    (area : Rect) (direction : Direction) : List Rect :=
  elements.map (elementRect changes area direction)

/-- The solve of `try_split`, with the cassowary solver's `fetch_changes`
result abstracted as the `changes` map (the source materializes it into a
`HashMap` and defaults missing entries to `0.0`). -/
def Layout.try_split (l : Layout) (area : Rect) (changes : Var → Option ℚ) :
    List Rect × List Rect :=
  let inner := area.inner l.margin
  (changes_to_rects changes l.segmentEls inner l.direction,
   changes_to_rects changes l.spacerEls inner l.direction)

/-- The defaulted assignment a change map denotes. -/
def assignOf (changes : Var → Option ℚ) : Var → ℚ :=
  fun v => (changes v).getD 0

/-- Modelled from the spec: the cassowary solver never violates a
constraint of strength REQUIRED (over-constrained inputs still satisfy the
ordering and area-anchor invariants). -/
def RequiredSatisfied (l : Layout) (area : Rect)
    (changes : Var → Option ℚ) : Prop :=
  ∀ c ∈ layoutConstraints l area, c.strength = REQUIRED →
    c.holds (assignOf changes)

instance (l : Layout) (area : Rect) (changes : Var → Option ℚ) :
    Decidable (RequiredSatisfied l area changes) :=
  inferInstanceAs (Decidable (∀ c ∈ layoutConstraints l area, _ → _))

/-- Modelled from the spec: on inputs where all constraints of strength at
least a threshold are simultaneously satisfiable, the solver (which
minimizes strength-weighted violations) satisfies all of them. -/
def SatisfiedAbove (θ : ℚ) (l : Layout) (area : Rect)
    (changes : Var → Option ℚ) : Prop :=
  ∀ c ∈ layoutConstraints l area, θ ≤ c.strength →
    c.holds (assignOf changes)

instance (θ : ℚ) (l : Layout) (area : Rect) (changes : Var → Option ℚ) :
    Decidable (SatisfiedAbove θ l area changes) :=
  inferInstanceAs (Decidable (∀ c ∈ layoutConstraints l area, _ → _))

/-- Modelled from the spec, section 4.4 Rounding: for each element compute
the rounded 16-bit start and end of the solver's values (a missing
assignment reads as 0.0), take the saturating difference of the rounded
endpoints as the size — never rounding the size independently — and copy
the orthogonal origin and extent from the inner area. -/
def specRoundRect (changes : Var → Option ℚ) (inner : Rect)
    (direction : Direction) (e : Element) : Rect :=
  let v_start : ℚ := (changes e.start).getD 0
  let v_end : ℚ := (changes e.stop).getD 0
  let start_i := u16cast (rustRound v_start)
  let end_i := u16cast (rustRound v_end)
  let size_i := end_i - start_i
  match direction with
  | .Horizontal => ⟨start_i, inner.y, size_i, inner.height⟩
  | .Vertical => ⟨inner.x, start_i, inner.width, size_i⟩

/-- The active-axis start coordinate of a rectangle. -/
def Rect.activeStart (r : Rect) (direction : Direction) : ℕ :=
  match direction with
  | .Horizontal => r.x
  | .Vertical => r.y

/-- The active-axis end coordinate of a rectangle. -/
def Rect.activeEnd (r : Rect) (direction : Direction) : ℕ :=
  match direction with
  | .Horizontal => r.right
  | .Vertical => r.bottom

/-- The active-axis start of the inner area. -/
def Layout.innerStart (l : Layout) (area : Rect) : ℕ :=
  match l.direction with
  | .Horizontal => (area.inner l.margin).x
  | .Vertical => (area.inner l.margin).y

/-- The active-axis end of the inner area. -/
def Layout.innerEnd (l : Layout) (area : Rect) : ℕ :=
  match l.direction with
  | .Horizontal => (area.inner l.margin).right
  | .Vertical => (area.inner l.margin).bottom

/-- Rust `NonZeroUsize::new`. -/
def nonZeroNew (n : ℕ) : Option ℕ := if n = 0 then none else some n

/-- The per-thread LRU cache: a capacity and the entries in recency order,
most recent first (models the lru crate's `LruCache`). -/
structure LruCacheM where
  cap : ℕ
  entries : List ((Rect × Layout) × (List Rect × List Rect))
deriving DecidableEq

/-- Lookup of a key among the entries. -/
def assocGet {κ ν : Type} [DecidableEq κ] : List (κ × ν) → κ → Option ν
  | [], _ => none
  | e :: rest, k => if e.1 = k then some e.2 else assocGet rest k

/-- lru `get_or_insert`: on a hit the entry is promoted to most recent and
its value returned; on a miss the closure computes the value, which is
inserted as most recent, evicting the least recent past capacity. -/
def LruCacheM.get_or_insert (c : LruCacheM) (k : Rect × Layout)
    (f : Unit → List Rect × List Rect) :
    (List Rect × List Rect) × LruCacheM :=
  match assocGet c.entries k with
  | some v => (v, ⟨c.cap, (k, v) :: c.entries.filter fun e => decide (e.1 ≠ k)⟩)
  | none =>
      let v := f ()
      (v, ⟨c.cap, ((k, v) :: c.entries).take c.cap⟩)

/-- The default capacity of the layout cache. -/
def DEFAULT_CACHE_SIZE : ℕ := 500

/-- `Layout::init_cache`: builds `LruCache::new(NonZeroUsize::new(n).unwrap())`
and offers it to the thread's `OnceLock`.  The unwrap of `NonZeroUsize::new(0)`
is a panic, modelled as `none`; the OnceLock set succeeds only when the
thread's cache is not yet initialized. -/
def init_cache (cache_size : ℕ) (st : Option LruCacheM) :
    Option (Bool × Option LruCacheM) :=
  match nonZeroNew cache_size with
  | none => none
  | some n =>
      match st with
      | none => some (true, some ⟨n, []⟩)
      | some c => some (false, some c)

/-- `Layout::split_with_spacers` with the thread-local cache state threaded
explicitly and the solver abstracted as `solve`: initialize the cache at the
default capacity when absent, then serve the result through `get_or_insert`
with `try_split` as the on-miss closure. -/
def Layout.split_with_spacers (l : Layout)
    (solve : Layout → Rect → (Var → Option ℚ)) (area : Rect)
    (st : Option LruCacheM) : (List Rect × List Rect) × LruCacheM :=
  let cache := st.getD ⟨DEFAULT_CACHE_SIZE, []⟩
  cache.get_or_insert (area, l) fun _ => l.try_split area (solve l area)

/-- `Layout::split`: the segments of `split_with_spacers`. -/
def Layout.split (l : Layout)
    (solve : Layout → Rect → (Var → Option ℚ)) (area : Rect)
    (st : Option LruCacheM) : List Rect × LruCacheM :=
  let r := l.split_with_spacers solve area st
  (r.1.1, r.2)

/-- The observable steps of one `split_with_spacers` call that touch the
thread-local cache cell. -/
inductive CacheEvent where
  | borrowMut
  | lookupKey
  | solveRun
  | insertNew
  | release
deriving DecidableEq, Repr

/-- Modelled from the source's order of operations in `split_with_spacers`:
the RefCell is mutably borrowed, `get_or_insert` looks the key up, on a miss
the closure runs `try_split` and then the result is inserted, and the borrow
is released when the whole expression ends. -/
def split_events (hit : Bool) : List CacheEvent :=
  if hit then [.borrowMut, .lookupKey, .release]
  else [.borrowMut, .lookupKey, .solveRun, .insertNew, .release]

/-- The number of live mutable borrows of the cache cell just before
position `i` of an event list. -/
def borrowDepthAt (evs : List CacheEvent) (i : ℕ) : ℕ :=
  ((evs.take i).filter fun e => decide (e = .borrowMut)).length
    - ((evs.take i).filter fun e => decide (e = .release)).length

/-- The reentrancy claim as the spec states it: whenever `try_split` runs,
no mutable borrow of the cache cell is live. -/
def CacheNeverBorrowedDuringSolve : Prop :=
  ∀ (hit : Bool) (i : ℕ), (split_events hit)[i]? = some .solveRun →
    borrowDepthAt (split_events hit) i = 0

/-- The layout of the spec's concrete scenario S1: vertical, Legacy flex,
no margin, no spacing, constraints Length 5 then Min 0. -/
def l_S1 : Layout :=
  ⟨.Vertical, [.Length 5, .Min 0], ⟨0, 0⟩, .Legacy, 0⟩

/-- The area of scenario S1. -/
def area_S1 : Rect := ⟨0, 0, 10, 10⟩

/-- The change set the solver reports for scenario S1 (variable values
0, 0, 5, 5, 10, 10): the unique assignment satisfying every constraint
except the weakest soft preference. -/
def changes_S1 : Var → Option ℚ :=
  fun v => some (if v ≤ 1 then 0 else if v ≤ 3 then 5 else 10)

/-- The constraint system of scenario S1, written out: area anchors,
variable range and ordering constraints, the Legacy spacer constraints, the
Length and Min size constraints. -/
def clist_S1 : List SolverCon :=
  [⟨varE 0, .eq, REQUIRED, constE ((0 : ℕ) : ℚ)⟩,
   ⟨varE 5, .eq, REQUIRED, constE ((10 : ℕ) : ℚ)⟩,
   ⟨varE 0, .ge, REQUIRED, varE 0⟩, ⟨varE 0, .le, REQUIRED, varE 5⟩,
   ⟨varE 1, .ge, REQUIRED, varE 0⟩, ⟨varE 1, .le, REQUIRED, varE 5⟩,
   ⟨varE 2, .ge, REQUIRED, varE 0⟩, ⟨varE 2, .le, REQUIRED, varE 5⟩,
   ⟨varE 3, .ge, REQUIRED, varE 0⟩, ⟨varE 3, .le, REQUIRED, varE 5⟩,
   ⟨varE 4, .ge, REQUIRED, varE 0⟩, ⟨varE 4, .le, REQUIRED, varE 5⟩,
   ⟨varE 5, .ge, REQUIRED, varE 0⟩, ⟨varE 5, .le, REQUIRED, varE 5⟩,
   ⟨varE 0, .le, REQUIRED, varE 1⟩, ⟨varE 1, .le, REQUIRED, varE 2⟩,
   ⟨varE 2, .le, REQUIRED, varE 3⟩, ⟨varE 3, .le, REQUIRED, varE 4⟩,
   ⟨varE 4, .le, REQUIRED, varE 5⟩,
   (Element.mk 2 3).has_size (constE ((0 : ℕ) : ℚ)) SPACER_SIZE_EQ,
   (Element.mk 0 1).is_empty,
   (Element.mk 4 5).is_empty,
   (Element.mk 1 2).has_int_size 5 LENGTH_SIZE_EQ,
   (Element.mk 3 4).has_min_size 0 MIN_SIZE_GE,
   (Element.mk 3 4).has_int_size 0 MIN_SIZE_EQ]

/-- A layout with no constraints, used as a concrete cache key. -/
def l_empty : Layout := ⟨.Horizontal, [], ⟨0, 0⟩, .Legacy, 0⟩

/-- A one-cell area. -/
def area1 : Rect := ⟨0, 0, 1, 1⟩

/-- A solver oracle reporting no changes at all. -/
def solve0 : Layout → Rect → (Var → Option ℚ) := fun _ _ _ => none

@[simp]
theorem eval_varE (a : Var → ℚ) (v : Var) : (varE v).eval a = a v := by
  simp [AffExpr.eval, varE]

@[simp]
theorem eval_constE (a : Var → ℚ) (c : ℚ) : (constE c).eval a = c := by
  simp [AffExpr.eval, constE]

@[simp]
theorem eval_size (a : Var → ℚ) (e : Element) :
    e.size.eval a = a e.stop - a e.start := by
  simp [AffExpr.eval, Element.size]
  ring

theorem pairs_length {α : Type} : ∀ l : List α, (pairs l).length = l.length / 2
  | [] => by simp [pairs]
  | [a] => by simp [pairs]
  | a :: b :: rest => by
      simp only [pairs, List.length_cons, pairs_length rest]
      omega

theorem pairs_getElem? {α : Type} :
    ∀ (l : List α) (i : ℕ),
      (pairs l)[i]? =
        (l[2 * i]?).bind fun a => (l[2 * i + 1]?).map fun b => (a, b)
  | [], i => by simp [pairs]
  | [a], i => by
      cases i with
      | zero => simp [pairs]
      | succ j => simp [pairs, Nat.mul_succ]
  | a :: b :: rest, i => by
      cases i with
      | zero => simp [pairs]
      | succ j =>
          have h1 : 2 * (j + 1) = 2 * j + 1 + 1 := by ring
          have h2 : 2 * (j + 1) + 1 = 2 * j + 1 + 1 + 1 := by ring
          simp [pairs, pairs_getElem? rest j, h1, h2]

theorem windows2_length {α : Type} :
    ∀ l : List α, (windows2 l).length = l.length - 1
  | [] => by simp [windows2]
  | [a] => by simp [windows2]
  | a :: b :: rest => by
      simp [windows2, windows2_length (b :: rest)]

theorem windows2_getElem? {α : Type} :
    ∀ (l : List α) (i : ℕ),
      (windows2 l)[i]? =
        (l[i]?).bind fun a => (l[i + 1]?).map fun b => (a, b)
  | [], i => by simp [windows2]
  | [a], i => by
      cases i with
      | zero => simp [windows2]
      | succ j => simp [windows2]
  | a :: b :: rest, i => by
      cases i with
      | zero => simp [windows2]
      | succ j => simp [windows2, windows2_getElem? (b :: rest) j]

theorem segmentEls_length (l : Layout) :
    l.segmentEls.length = l.constraints.length := by
  simp only [Layout.segmentEls, List.length_map, pairs_length,
    List.length_drop, Layout.variables, List.length_range, Layout.numVars]
  omega

theorem spacerEls_length (l : Layout) :
    l.spacerEls.length = l.constraints.length + 1 := by
  simp only [Layout.spacerEls, List.length_map, pairs_length,
    Layout.variables, List.length_range, Layout.numVars]
  omega

theorem segmentEls_getElem? (l : Layout) (i : ℕ)
    (hi : i < l.constraints.length) :
    l.segmentEls[i]? = some ⟨2 * i + 1, 2 * i + 2⟩ := by
  have hn : l.numVars = l.constraints.length * 2 + 2 := rfl
  have h1 : ((List.range l.numVars).drop 1)[2 * i]? = some (2 * i + 1) := by
    rw [List.getElem?_drop, List.getElem?_range (by omega)]
    congr 1
    omega
  have h2 : ((List.range l.numVars).drop 1)[2 * i + 1]? = some (2 * i + 2) := by
    rw [List.getElem?_drop, List.getElem?_range (by omega)]
    congr 1
    omega
  simp only [Layout.segmentEls, Layout.variables, List.getElem?_map,
    pairs_getElem?, h1, h2]
  simp [elemOfPair]

theorem spacerEls_getElem? (l : Layout) (i : ℕ)
    (hi : i < l.constraints.length + 1) :
    l.spacerEls[i]? = some ⟨2 * i, 2 * i + 1⟩ := by
  have hn : l.numVars = l.constraints.length * 2 + 2 := rfl
  have h1 : (List.range l.numVars)[2 * i]? = some (2 * i) :=
    List.getElem?_range (by omega)
  have h2 : (List.range l.numVars)[2 * i + 1]? = some (2 * i + 1) :=
    List.getElem?_range (by omega)
  simp [Layout.spacerEls, Layout.variables, pairs_getElem?, h1, h2, elemOfPair]

theorem areaSizeEl_eq (l : Layout) :
    l.areaSizeEl = ⟨0, 2 * l.constraints.length + 1⟩ := by
  have hn : l.numVars = (l.constraints.length * 2 + 1) + 1 := rfl
  have hhead : (List.range l.numVars).headD 0 = 0 := by
    rw [hn, List.range_succ_eq_map (l.constraints.length * 2 + 1)]
    rfl
  have hlast : (List.range l.numVars).getLastD 0 = l.constraints.length * 2 + 1 := by
    rw [hn, List.range_succ (l.constraints.length * 2 + 1)]
    exact List.getLastD_concat _ _ _
  unfold Layout.areaSizeEl Layout.variables
  rw [hhead, hlast]
  congr 1
  ring

theorem axisBounds_eq (l : Layout) (area : Rect) :
    l.axisBounds area = ((l.innerStart area : ℚ), (l.innerEnd area : ℚ)) := by
  cases hd : l.direction <;>
    simp [Layout.axisBounds, Layout.innerStart, Layout.innerEnd, hd]

theorem innerStart_le_innerEnd (l : Layout) (area : Rect) :
    l.innerStart area ≤ l.innerEnd area := by
  cases hd : l.direction <;>
    simp [Layout.innerStart, Layout.innerEnd, Rect.right, Rect.bottom, hd]

theorem rustRound_natCast (k : ℕ) : rustRound (k : ℚ) = k := by
  unfold rustRound
  rw [if_pos (by positivity)]
  rw [Int.floor_eq_iff]
  constructor
  · push_cast
    linarith
  · push_cast
    linarith

theorem rustRound_mono {v w : ℚ} (h : v ≤ w) : rustRound v ≤ rustRound w := by
  unfold rustRound
  by_cases hv : 0 ≤ v
  · rw [if_pos hv, if_pos (le_trans hv h)]
    exact Int.floor_le_floor (by linarith)
  · rw [if_neg hv]
    by_cases hw : 0 ≤ w
    · rw [if_pos hw]
      have h1 : 0 ≤ ⌊w + 1 / 2⌋ := Int.floor_nonneg.mpr (by linarith)
      have h2 : 0 ≤ ⌊-v + 1 / 2⌋ := by
        push_neg at hv
        exact Int.floor_nonneg.mpr (by linarith)
      omega
    · rw [if_neg hw]
      have h3 := Int.floor_le_floor (show -w + 1 / 2 ≤ -v + 1 / 2 by linarith)
      omega

theorem u16cast_mono {i j : ℤ} (h : i ≤ j) : u16cast i ≤ u16cast j := by
  unfold u16cast
  omega

theorem u16cast_natCast (k : ℕ) (hk : k ≤ 65535) : u16cast (k : ℤ) = k := by
  unfold u16cast
  omega

theorem roundVal_mono (changes : Var → Option ℚ) {u v : Var}
    (h : assignOf changes u ≤ assignOf changes v) :
    roundVal changes u ≤ roundVal changes v :=
  u16cast_mono (rustRound_mono h)

theorem roundVal_eq_nat (changes : Var → Option ℚ) (v : Var) (k : ℕ)
    (hk : k ≤ 65535) (h : assignOf changes v = (k : ℚ)) :
    roundVal changes v = k := by
  unfold roundVal
  rw [show (changes v).getD 0 = assignOf changes v from rfl, h,
    rustRound_natCast, u16cast_natCast k hk]

theorem roundVal_le_nat (changes : Var → Option ℚ) (v : Var) (k : ℕ)
    (hk : k ≤ 65535) (h : assignOf changes v ≤ (k : ℚ)) :
    roundVal changes v ≤ k := by
  have h1 : roundVal changes v ≤ u16cast (rustRound (k : ℚ)) :=
    u16cast_mono (rustRound_mono h)
  rwa [rustRound_natCast, u16cast_natCast k hk] at h1

theorem nat_le_roundVal (changes : Var → Option ℚ) (v : Var) (k : ℕ)
    (hk : k ≤ 65535) (h : (k : ℚ) ≤ assignOf changes v) :
    k ≤ roundVal changes v := by
  have h1 : u16cast (rustRound (k : ℚ)) ≤ roundVal changes v :=
    u16cast_mono (rustRound_mono h)
  rwa [rustRound_natCast, u16cast_natCast k hk] at h1

theorem elementRect_activeStart (changes : Var → Option ℚ) (area : Rect)
    (direction : Direction) (e : Element) :
    (elementRect changes area direction e).activeStart direction =
      roundVal changes e.start := by
  cases direction <;> rfl

theorem elementRect_activeEnd (changes : Var → Option ℚ) (area : Rect)
    (direction : Direction) (e : Element) :
    (elementRect changes area direction e).activeEnd direction =
      max (roundVal changes e.start) (roundVal changes e.stop) := by
  cases direction <;>
    (simp [elementRect, Rect.activeEnd, Rect.right, Rect.bottom]; omega)

theorem mem_of_getElem?_eq {α : Type} {l : List α} {i : ℕ} {a : α}
    (h : l[i]? = some a) : a ∈ l := by
  obtain ⟨hh, rfl⟩ := List.getElem?_eq_some_iff.mp h
  exact List.getElem_mem hh

theorem get_eq_of_getElem?_eq {α : Type} {l : List α} {i : ℕ} {x : α}
    (hi : i < l.length) (h : l[i]? = some x) : l.get ⟨i, hi⟩ = x := by
  rw [List.get_eq_getElem]
  obtain ⟨h1, h2⟩ := List.getElem?_eq_some_iff.mp h
  exact h2

/-- C4: the declared strength constants satisfy the spec's ordering exactly:
SPACER_SIZE_EQ above MIN_SIZE_GE = MAX_SIZE_LE, above LENGTH_SIZE_EQ, above
PERCENTAGE_SIZE_EQ, above RATIO_SIZE_EQ, above MAX_SIZE_EQ = MIN_SIZE_EQ,
above FILL_GROW, above GROW, above SPACE_GROW, with each constant defined
from the solver anchors as the spec lists them. -/
theorem strength_table_valid :
    SPACER_SIZE_EQ > MIN_SIZE_GE ∧ MIN_SIZE_GE = MAX_SIZE_LE ∧
    MAX_SIZE_LE > LENGTH_SIZE_EQ ∧ LENGTH_SIZE_EQ > PERCENTAGE_SIZE_EQ ∧
    PERCENTAGE_SIZE_EQ > RATIO_SIZE_EQ ∧ RATIO_SIZE_EQ > MAX_SIZE_EQ ∧
    MAX_SIZE_EQ = MIN_SIZE_EQ ∧ MIN_SIZE_EQ > FILL_GROW ∧
    FILL_GROW > GROW ∧ GROW > SPACE_GROW ∧
    SPACER_SIZE_EQ = REQUIRED - 1 ∧ MIN_SIZE_GE = STRONG * 10 ∧
    MAX_SIZE_LE = STRONG * 10 ∧ LENGTH_SIZE_EQ = STRONG / 10 ∧
    PERCENTAGE_SIZE_EQ = MEDIUM * 10 ∧ RATIO_SIZE_EQ = MEDIUM ∧
    MAX_SIZE_EQ = MEDIUM / 10 ∧ MIN_SIZE_EQ = MEDIUM / 10 ∧
    FILL_GROW = WEAK * 10 ∧ GROW = WEAK ∧ SPACE_GROW = WEAK / 10 := by
  norm_num [SPACER_SIZE_EQ, MIN_SIZE_GE, MAX_SIZE_LE, LENGTH_SIZE_EQ,
    PERCENTAGE_SIZE_EQ, RATIO_SIZE_EQ, MAX_SIZE_EQ, MIN_SIZE_EQ, FILL_GROW,
    GROW, SPACE_GROW, REQUIRED, STRONG, MEDIUM, WEAK]

/-- C6: compiling a Ratio constraint uses max(den, 1) as the denominator, so
no division by zero occurs and Ratio(n, 0) compiles to exactly the same
solver constraint as Ratio(n, 1), also inside a whole constraint list. -/
theorem ratio_den_zero_safe (n d : ℕ) (area e : Element) (flex : Flex)
    (segments : List Element) (cs : List Constraint) :
    size_constraints area flex (.Ratio n 0, e) =
      size_constraints area flex (.Ratio n 1, e)
    ∧ size_constraints area flex (.Ratio n d, e) =
        [e.has_size (AffExpr.scale ((n : ℚ) / ((max d 1 : ℕ) : ℚ)) area.size)
          RATIO_SIZE_EQ]
    ∧ configure_constraints area segments (.Ratio n 0 :: cs) flex =
        configure_constraints area segments (.Ratio n 1 :: cs) flex := by
  refine ⟨by norm_num [size_constraints], rfl, ?_⟩
  cases segments with
  | nil => rfl
  | cons s ss =>
      simp only [configure_constraints, List.zip_cons_cons, List.flatMap_cons]
      norm_num [size_constraints]

/-- C7: init_cache with a positive capacity initializes the thread's cache
at that capacity and returns true when uninitialized; any later call returns
false and leaves the cache untouched; init_cache 0 is fatal (the unwrap of
NonZeroUsize::new(0) panics, modelled as none). -/
theorem init_cache_spec (n : ℕ) (st : Option LruCacheM) :
    (0 < n → st = none → init_cache n st = some (true, some ⟨n, []⟩))
    ∧ (∀ c : LruCacheM, 0 < n → st = some c →
        init_cache n st = some (false, some c))
    ∧ init_cache 0 st = none := by
  refine ⟨?_, ?_, ?_⟩
  · intro hn hst
    subst hst
    have h0 : n ≠ 0 := by omega
    simp [init_cache, nonZeroNew, h0]
  · intro c hn hst
    subst hst
    have h0 : n ≠ 0 := by omega
    simp [init_cache, nonZeroNew, h0]
  · simp [init_cache, nonZeroNew]

/-- Witness for C7: init_cache at capacity 3 on a fresh thread succeeds, a
second call is a no-op returning false, and capacity 0 is fatal. -/
theorem init_cache_spec_witness :
    init_cache 3 none = some (true, some ⟨3, []⟩)
    ∧ init_cache 3 (some ⟨3, []⟩) = some (false, some ⟨3, []⟩)
    ∧ init_cache 0 none = none :=
  ⟨(init_cache_spec 3 none).1 (by norm_num) rfl,
   (init_cache_spec 3 (some ⟨3, []⟩)).2.1 ⟨3, []⟩ (by norm_num) rfl,
   (init_cache_spec 0 none).2.2⟩

/-- C9, counterexample: on a cache miss the solve step happens at position 2
of the event trace, where the mutable borrow taken at position 0 is still
live (depth 1, not 0), so the claim that the RefCell is never mutably
borrowed while try_split runs is false. -/
theorem cache_borrowed_during_solve : CacheNeverBorrowedDuringSolve = False := by
  refine eq_false fun h => ?_
  have h2 := h false 2 rfl
  revert h2
  decide

/-- C9, amended: the solve result is fully produced before it is inserted
(the solve step strictly precedes the insert step), but while try_split runs
the cache RefCell is mutably borrowed, at depth exactly 1 — the borrow that
get_or_insert runs under — so a reentrant split during solving would hit a
live borrow. -/
theorem solve_precedes_insert_under_borrow :
    (split_events false)[2]? = some CacheEvent.solveRun
    ∧ (split_events false)[3]? = some CacheEvent.insertNew
    ∧ borrowDepthAt (split_events false) 2 = 1
    ∧ borrowDepthAt (split_events false) 3 = 1 := by
  decide

/-- C1: for every area, layout and solver outcome, try_split returns exactly
one segment per constraint and one more spacer than segments; the public
split_with_spacers and split (on a fresh thread state) return the same
counts. -/
theorem split_lengths (l : Layout) (area : Rect) (changes : Var → Option ℚ)
    (solve : Layout → Rect → (Var → Option ℚ)) :
    (l.try_split area changes).1.length = l.constraints.length
    ∧ (l.try_split area changes).2.length = l.constraints.length + 1
    ∧ ((l.split_with_spacers solve area none).1).1.length = l.constraints.length
    ∧ ((l.split_with_spacers solve area none).1).2.length = l.constraints.length + 1
    ∧ (l.split solve area none).1.length = l.constraints.length := by
  have h1 : (l.try_split area changes).1.length = l.constraints.length := by
    simp [Layout.try_split, changes_to_rects, segmentEls_length]
  have h2 : (l.try_split area changes).2.length = l.constraints.length + 1 := by
    simp [Layout.try_split, changes_to_rects, spacerEls_length]
  have h3 : (l.split_with_spacers solve area none).1 =
      l.try_split area (solve l area) := by
    simp [Layout.split_with_spacers, LruCacheM.get_or_insert, assocGet]
  refine ⟨h1, h2, ?_, ?_, ?_⟩
  · rw [h3]
    simp [Layout.try_split, changes_to_rects, segmentEls_length]
  · rw [h3]
    simp [Layout.try_split, changes_to_rects, spacerEls_length]
  · show ((l.split_with_spacers solve area none).1).1.length = _
    rw [h3]
    simp [Layout.try_split, changes_to_rects, segmentEls_length]

/-- C10: splitting with an empty constraint sequence is total and returns
zero segments and exactly one spacer; the middle-spacer slice defaults to
the empty list, and the first and last spacer both are the single spacer
element made of variables 0 and 1. -/
theorem try_split_no_constraints (direction : Direction) (m : Margin)
    (flex : Flex) (spacing : ℕ) (area : Rect) (changes : Var → Option ℚ) :
    (Layout.mk direction [] m flex spacing).try_split area changes =
      ([], [elementRect changes (area.inner m) direction ⟨0, 1⟩])
    ∧ (sliceGet (Layout.mk direction [] m flex spacing).spacerEls 1
        ((Layout.mk direction [] m flex spacing).spacerEls.length - 1)).getD []
        = []
    ∧ (Layout.mk direction [] m flex spacing).spacerEls.head? = some ⟨0, 1⟩
    ∧ (Layout.mk direction [] m flex spacing).spacerEls.getLast? = some ⟨0, 1⟩
    := by
  refine ⟨rfl, ?_, rfl, rfl⟩
  rfl

theorem req_anchor_start (l : Layout) (area : Rect)
    (changes : Var → Option ℚ) (h : RequiredSatisfied l area changes) :
    assignOf changes 0 = (l.innerStart area : ℚ) := by
  have hm : (⟨varE l.areaSizeEl.start, .eq, REQUIRED,
      constE (l.axisBounds area).1⟩ : SolverCon) ∈ layoutConstraints l area := by
    simp [layoutConstraints, configure_area]
  have hc := h _ hm rfl
  simpa [SolverCon.holds, Rel.holds, areaSizeEl_eq, axisBounds_eq] using hc

theorem req_anchor_end (l : Layout) (area : Rect)
    (changes : Var → Option ℚ) (h : RequiredSatisfied l area changes) :
    assignOf changes (2 * l.constraints.length + 1) = (l.innerEnd area : ℚ) := by
  have hm : (⟨varE l.areaSizeEl.stop, .eq, REQUIRED,
      constE (l.axisBounds area).2⟩ : SolverCon) ∈ layoutConstraints l area := by
    simp [layoutConstraints, configure_area]
  have hc := h _ hm rfl
  simpa [SolverCon.holds, Rel.holds, areaSizeEl_eq, axisBounds_eq] using hc

theorem req_ge_area_start (l : Layout) (area : Rect)
    (changes : Var → Option ℚ) (v : Var) (hv : v < l.numVars)
    (h : RequiredSatisfied l area changes) :
    assignOf changes 0 ≤ assignOf changes v := by
  have hsub : (⟨varE v, .ge, REQUIRED, varE l.areaSizeEl.start⟩ : SolverCon)
      ∈ configure_variable_constraints l.variables l.areaSizeEl := by
    apply List.mem_append_left
    refine List.mem_flatMap.mpr ⟨v, List.mem_range.mpr hv, ?_⟩
    simp
  have hm : (⟨varE v, .ge, REQUIRED, varE l.areaSizeEl.start⟩ : SolverCon)
      ∈ layoutConstraints l area := by
    simp only [layoutConstraints, List.mem_append]
    tauto
  have hc := h _ hm rfl
  simpa [SolverCon.holds, Rel.holds, areaSizeEl_eq] using hc

theorem req_le_area_end (l : Layout) (area : Rect)
    (changes : Var → Option ℚ) (v : Var) (hv : v < l.numVars)
    (h : RequiredSatisfied l area changes) :
    assignOf changes v ≤ assignOf changes (2 * l.constraints.length + 1) := by
  have hsub : (⟨varE v, .le, REQUIRED, varE l.areaSizeEl.stop⟩ : SolverCon)
      ∈ configure_variable_constraints l.variables l.areaSizeEl := by
    apply List.mem_append_left
    refine List.mem_flatMap.mpr ⟨v, List.mem_range.mpr hv, ?_⟩
    simp
  have hm : (⟨varE v, .le, REQUIRED, varE l.areaSizeEl.stop⟩ : SolverCon)
      ∈ layoutConstraints l area := by
    simp only [layoutConstraints, List.mem_append]
    tauto
  have hc := h _ hm rfl
  simpa [SolverCon.holds, Rel.holds, areaSizeEl_eq] using hc

theorem req_adjacent (l : Layout) (area : Rect)
    (changes : Var → Option ℚ) (i : ℕ) (hi : i + 1 < l.numVars)
    (h : RequiredSatisfied l area changes) :
    assignOf changes i ≤ assignOf changes (i + 1) := by
  have hw : (i, i + 1) ∈ windows2 l.variables := by
    apply mem_of_getElem?_eq (i := i)
    rw [windows2_getElem?]
    rw [show l.variables[i]? = some i from List.getElem?_range (by omega)]
    rw [show l.variables[i + 1]? = some (i + 1) from List.getElem?_range hi]
    rfl
  have hsub : (⟨varE i, .le, REQUIRED, varE (i + 1)⟩ : SolverCon)
      ∈ configure_variable_constraints l.variables l.areaSizeEl := by
    apply List.mem_append_right
    exact List.mem_map.mpr ⟨(i, i + 1), hw, rfl⟩
  have hm : (⟨varE i, .le, REQUIRED, varE (i + 1)⟩ : SolverCon)
      ∈ layoutConstraints l area := by
    simp only [layoutConstraints, List.mem_append]
    tauto
  have hc := h _ hm rfl
  simpa [SolverCon.holds, Rel.holds] using hc

/-- C2: under the solver's guarantee that required constraints hold, the
returned segments are ordered and pairwise non-overlapping along the active
axis, and every segment lies within the inner area on that axis. -/
theorem segments_ordered_within_inner (l : Layout) (area : Rect)
    (changes : Var → Option ℚ) (hreq : RequiredSatisfied l area changes)
    (hbound : l.innerEnd area ≤ 65535) :
    (∀ (i : ℕ) (hi : i + 1 < (l.try_split area changes).1.length),
      ((l.try_split area changes).1.get ⟨i, Nat.lt_of_succ_lt hi⟩).activeEnd
          l.direction
        ≤ ((l.try_split area changes).1.get ⟨i + 1, hi⟩).activeStart
          l.direction)
    ∧ (∀ (i : ℕ) (hi : i < (l.try_split area changes).1.length),
      l.innerStart area
          ≤ ((l.try_split area changes).1.get ⟨i, hi⟩).activeStart l.direction
      ∧ ((l.try_split area changes).1.get ⟨i, hi⟩).activeEnd l.direction
          ≤ l.innerEnd area) := by
  have hlen : (l.try_split area changes).1.length = l.constraints.length := by
    simp [Layout.try_split, changes_to_rects, segmentEls_length]
  have hget : ∀ (i : ℕ) (hh : i < (l.try_split area changes).1.length),
      (l.try_split area changes).1.get ⟨i, hh⟩ =
        elementRect changes (area.inner l.margin) l.direction
          ⟨2 * i + 1, 2 * i + 2⟩ := by
    intro i hh
    have hiN : i < l.constraints.length := by omega
    apply get_eq_of_getElem?_eq
    simp [Layout.try_split, changes_to_rects, List.getElem?_map,
      segmentEls_getElem? l i hiN]
  have hnv : l.numVars = 2 * l.constraints.length + 2 := by
    simp [Layout.numVars]
    ring
  have hadj : ∀ j, j + 1 < l.numVars →
      assignOf changes j ≤ assignOf changes (j + 1) :=
    fun j hj => req_adjacent l area changes j hj hreq
  have hstart0 : assignOf changes 0 = (l.innerStart area : ℚ) :=
    req_anchor_start l area changes hreq
  have hend : assignOf changes (2 * l.constraints.length + 1) =
      (l.innerEnd area : ℚ) :=
    req_anchor_end l area changes hreq
  have hinnerS : l.innerStart area ≤ 65535 :=
    le_trans (innerStart_le_innerEnd l area) hbound
  constructor
  · intro i hi
    have hiN1 : i + 1 < l.constraints.length := by omega
    rw [hget i (Nat.lt_of_succ_lt hi), hget (i + 1) hi]
    rw [elementRect_activeEnd, elementRect_activeStart]
    have m1 : assignOf changes (2 * i + 1) ≤ assignOf changes (2 * i + 2) :=
      hadj (2 * i + 1) (by omega)
    have m2 : assignOf changes (2 * i + 2) ≤ assignOf changes (2 * i + 3) :=
      hadj (2 * i + 2) (by omega)
    have w1 := roundVal_mono changes m1
    have w2 := roundVal_mono changes m2
    have h3 : 2 * (i + 1) + 1 = 2 * i + 3 := by ring
    rw [show (⟨2 * (i + 1) + 1, 2 * (i + 1) + 2⟩ : Element).start
          = 2 * i + 3 by simp [h3]]
    exact max_le (le_trans w1 w2) w2
  · intro i hi
    have hiN : i < l.constraints.length := by omega
    rw [hget i hi, elementRect_activeStart, elementRect_activeEnd]
    constructor
    · have hv1 : 2 * i + 1 < l.numVars := by
        rw [hnv]
        omega
      have h01 : assignOf changes 0 ≤ assignOf changes (2 * i + 1) :=
        req_ge_area_start l area changes (2 * i + 1) hv1 hreq
      have hc : (l.innerStart area : ℚ) ≤ assignOf changes (2 * i + 1) := by
        rw [← hstart0]
        exact h01
      exact nat_le_roundVal changes _ _ hinnerS hc
    · have hv1 : 2 * i + 1 < l.numVars := by
        rw [hnv]
        omega
      have hv2 : 2 * i + 2 < l.numVars := by
        rw [hnv]
        omega
      have hu1 : assignOf changes (2 * i + 1)
          ≤ assignOf changes (2 * l.constraints.length + 1) :=
        req_le_area_end l area changes (2 * i + 1) hv1 hreq
      have hu2 : assignOf changes (2 * i + 2)
          ≤ assignOf changes (2 * l.constraints.length + 1) :=
        req_le_area_end l area changes (2 * i + 2) hv2 hreq
      have e1 : assignOf changes (2 * i + 1) ≤ (l.innerEnd area : ℚ) := by
        rw [← hend]
        exact hu1
      have e2 : assignOf changes (2 * i + 2) ≤ (l.innerEnd area : ℚ) := by
        rw [← hend]
        exact hu2
      exact max_le (roundVal_le_nat changes _ _ hbound e1)
        (roundVal_le_nat changes _ _ hbound e2)

theorem layoutConstraints_S1 :
    layoutConstraints l_S1 area_S1 = clist_S1 := rfl

/-- The solver outcome of scenario S1 satisfies every constraint of strength
at least LENGTH_SIZE_EQ (everything except the soft Min equality). -/
theorem changes_S1_satisfies :
    SatisfiedAbove LENGTH_SIZE_EQ l_S1 area_S1 changes_S1 := by
  intro c hc
  rw [layoutConstraints_S1] at hc
  simp only [clist_S1, List.mem_cons, List.not_mem_nil, or_false] at hc
  rcases hc with rfl | rfl | rfl | rfl | rfl | rfl | rfl | rfl | rfl | rfl |
    rfl | rfl | rfl | rfl | rfl | rfl | rfl | rfl | rfl | rfl | rfl | rfl |
    rfl | rfl | rfl <;>
  norm_num [SolverCon.holds, Rel.holds, AffExpr.eval, Element.size,
    Element.has_size, Element.has_int_size, Element.has_min_size,
    Element.is_empty, varE, constE, assignOf, changes_S1, LENGTH_SIZE_EQ,
    MIN_SIZE_EQ, SPACER_SIZE_EQ, MIN_SIZE_GE, REQUIRED, STRONG, MEDIUM]

/-- Satisfaction above the LENGTH_SIZE_EQ threshold covers the required
constraints in particular. -/
theorem requiredOfAboveLength (l : Layout) (area : Rect)
    (changes : Var → Option ℚ)
    (h : SatisfiedAbove LENGTH_SIZE_EQ l area changes) :
    RequiredSatisfied l area changes := by
  intro c hm hs
  refine h c hm ?_
  rw [hs]
  norm_num [LENGTH_SIZE_EQ, STRONG, REQUIRED]

/-- Witness for C2 at scenario S1: the concrete solver outcome satisfies the
required constraints and the segment rectangles it yields are ordered and
inside the inner area. -/
theorem segments_ordered_within_inner_witness :
    RequiredSatisfied l_S1 area_S1 changes_S1
    ∧ l_S1.innerEnd area_S1 ≤ 65535
    ∧ ((∀ (i : ℕ) (hi : i + 1 < (l_S1.try_split area_S1 changes_S1).1.length),
        ((l_S1.try_split area_S1 changes_S1).1.get
            ⟨i, Nat.lt_of_succ_lt hi⟩).activeEnd l_S1.direction
          ≤ ((l_S1.try_split area_S1 changes_S1).1.get
            ⟨i + 1, hi⟩).activeStart l_S1.direction)
      ∧ (∀ (i : ℕ) (hi : i < (l_S1.try_split area_S1 changes_S1).1.length),
        l_S1.innerStart area_S1
            ≤ ((l_S1.try_split area_S1 changes_S1).1.get
              ⟨i, hi⟩).activeStart l_S1.direction
        ∧ ((l_S1.try_split area_S1 changes_S1).1.get
              ⟨i, hi⟩).activeEnd l_S1.direction ≤ l_S1.innerEnd area_S1)) :=
  ⟨requiredOfAboveLength l_S1 area_S1 changes_S1 changes_S1_satisfies,
   by decide,
   segments_ordered_within_inner l_S1 area_S1 changes_S1
     (requiredOfAboveLength l_S1 area_S1 changes_S1 changes_S1_satisfies)
     (by decide)⟩

/-- C5: changes_to_rects builds every output rectangle exactly as the spec's
rounding step describes (rounded 16-bit endpoints, saturating size from the
rounded endpoints, missing assignments as 0.0), and on the orthogonal axis
each rectangle copies the inner area's origin and extent. -/
theorem changes_to_rects_spec (changes : Var → Option ℚ)
    (elements : List Element) (area : Rect) (direction : Direction) :
    changes_to_rects changes elements area direction =
      elements.map (specRoundRect changes area direction)
    ∧ ∀ r ∈ changes_to_rects changes elements area direction,
        (direction = .Horizontal → r.y = area.y ∧ r.height = area.height)
        ∧ (direction = .Vertical → r.x = area.x ∧ r.width = area.width) := by
  constructor
  · rfl
  · intro r hr
    simp only [changes_to_rects, List.mem_map] at hr
    obtain ⟨e, he, rfl⟩ := hr
    cases direction with
    | Horizontal =>
        constructor
        · intro hd
          exact ⟨rfl, rfl⟩
        · intro hd
          exact Direction.noConfusion hd
    | Vertical =>
        constructor
        · intro hd
          exact Direction.noConfusion hd
        · intro hd
          exact ⟨rfl, rfl⟩

/-- C3: on area (0,0,10,10), Vertical, Legacy, spacing 0, constraints
Length 5 then Min 0, any solver outcome satisfying all constraints of
strength at least LENGTH_SIZE_EQ (which is simultaneously satisfiable, as
the witness shows) yields exactly the segments (0,0,10,5) and (0,5,10,5). -/
theorem scenario_S1 (changes : Var → Option ℚ)
    (h : SatisfiedAbove LENGTH_SIZE_EQ l_S1 area_S1 changes) :
    (l_S1.try_split area_S1 changes).1 =
      [⟨0, 0, 10, 5⟩, ⟨0, 5, 10, 5⟩] := by
  have hth : LENGTH_SIZE_EQ ≤ REQUIRED := by
    norm_num [LENGTH_SIZE_EQ, STRONG, REQUIRED]
  have hth1 : LENGTH_SIZE_EQ ≤ REQUIRED - 1 := by
    norm_num [LENGTH_SIZE_EQ, STRONG, REQUIRED]
  have hth2 : LENGTH_SIZE_EQ ≤ SPACER_SIZE_EQ := by
    norm_num [LENGTH_SIZE_EQ, STRONG, SPACER_SIZE_EQ, REQUIRED]
  have h1 := h ⟨varE 0, .eq, REQUIRED, constE ((0 : ℕ) : ℚ)⟩
    (by rw [layoutConstraints_S1]; simp [clist_S1]) hth
  have h2 := h ⟨varE 5, .eq, REQUIRED, constE ((10 : ℕ) : ℚ)⟩
    (by rw [layoutConstraints_S1]; simp [clist_S1]) hth
  have h3 := h ((Element.mk 0 1).is_empty)
    (by rw [layoutConstraints_S1]; simp [clist_S1]) hth1
  have h4 := h ((Element.mk 2 3).has_size (constE ((0 : ℕ) : ℚ)) SPACER_SIZE_EQ)
    (by rw [layoutConstraints_S1]; simp [clist_S1]) hth2
  have h5 := h ((Element.mk 4 5).is_empty)
    (by rw [layoutConstraints_S1]; simp [clist_S1]) hth1
  have h6 := h ((Element.mk 1 2).has_int_size 5 LENGTH_SIZE_EQ)
    (by rw [layoutConstraints_S1]; simp [clist_S1]) (le_refl _)
  norm_num [SolverCon.holds, Rel.holds, AffExpr.eval, Element.size,
    Element.has_size, Element.has_int_size, Element.is_empty, varE,
    constE] at h1 h2 h3 h4 h5 h6
  have a1 : assignOf changes 1 = ((0 : ℕ) : ℚ) := by
    push_cast
    linarith
  have a2 : assignOf changes 2 = ((5 : ℕ) : ℚ) := by
    push_cast
    linarith
  have a3 : assignOf changes 3 = ((5 : ℕ) : ℚ) := by
    push_cast
    linarith
  have a4 : assignOf changes 4 = ((10 : ℕ) : ℚ) := by
    push_cast
    linarith
  have w1 : roundVal changes 1 = 0 := roundVal_eq_nat changes 1 0 (by norm_num) a1
  have w2 : roundVal changes 2 = 5 := roundVal_eq_nat changes 2 5 (by norm_num) a2
  have w3 : roundVal changes 3 = 5 := roundVal_eq_nat changes 3 5 (by norm_num) a3
  have w4 : roundVal changes 4 = 10 :=
    roundVal_eq_nat changes 4 10 (by norm_num) a4
  have hseg : l_S1.segmentEls = [⟨1, 2⟩, ⟨3, 4⟩] := rfl
  show changes_to_rects changes l_S1.segmentEls (area_S1.inner l_S1.margin)
      l_S1.direction = _
  rw [hseg]
  show [elementRect changes (area_S1.inner l_S1.margin) l_S1.direction ⟨1, 2⟩,
        elementRect changes (area_S1.inner l_S1.margin) l_S1.direction ⟨3, 4⟩]
      = _
  simp [elementRect, w1, w2, w3, w4, l_S1, area_S1, Rect.inner]

/-- Witness for C3: the concrete solver outcome for scenario S1 satisfies
everything of strength at least LENGTH_SIZE_EQ, and the theorem applied to
it produces the two expected rectangles. -/
theorem scenario_S1_witness :
    SatisfiedAbove LENGTH_SIZE_EQ l_S1 area_S1 changes_S1
    ∧ (l_S1.try_split area_S1 changes_S1).1 =
        [⟨0, 0, 10, 5⟩, ⟨0, 5, 10, 5⟩] :=
  ⟨changes_S1_satisfies, scenario_S1 changes_S1 changes_S1_satisfies⟩

/-- C8: two successive split_with_spacers calls on the same thread with
identical area and layout return value-equal results: after the first call
the key is stored in the cache (most recently used), and the second call
returns the stored value. -/
theorem get_or_insert_assocGet (c : LruCacheM) (k : Rect × Layout)
    (f : Unit → List Rect × List Rect) (hcap : 0 < c.cap) :
    assocGet (c.get_or_insert k f).2.entries k =
      some (c.get_or_insert k f).1 := by
  unfold LruCacheM.get_or_insert
  cases hm : assocGet c.entries k with
  | some v => simp [assocGet]
  | none =>
      cases hcc : c.cap with
      | zero => exact absurd hcap (by omega)
      | succ m => simp [List.take, assocGet]

theorem get_or_insert_fst_of_hit (c : LruCacheM) (k : Rect × Layout)
    (f : Unit → List Rect × List Rect) (v : List Rect × List Rect)
    (h : assocGet c.entries k = some v) : (c.get_or_insert k f).1 = v := by
  unfold LruCacheM.get_or_insert
  rw [h]

theorem split_with_spacers_memoized (l : Layout)
    (solve : Layout → Rect → (Var → Option ℚ)) (area : Rect)
    (st : Option LruCacheM)
    (hcap : ∀ c : LruCacheM, st = some c → 0 < c.cap) :
    (l.split_with_spacers solve area
        (some (l.split_with_spacers solve area st).2)).1
      = (l.split_with_spacers solve area st).1
    ∧ assocGet (l.split_with_spacers solve area st).2.entries (area, l)
      = some (l.split_with_spacers solve area st).1 := by
  have hcap0 : 0 < (st.getD ⟨DEFAULT_CACHE_SIZE, []⟩).cap := by
    cases st with
    | none => simp [DEFAULT_CACHE_SIZE]
    | some c => simpa using hcap c rfl
  have hfront : assocGet ((st.getD ⟨DEFAULT_CACHE_SIZE, []⟩).get_or_insert
        (area, l) (fun _ => l.try_split area (solve l area))).2.entries
        (area, l)
      = some ((st.getD ⟨DEFAULT_CACHE_SIZE, []⟩).get_or_insert
        (area, l) (fun _ => l.try_split area (solve l area))).1 :=
    get_or_insert_assocGet _ _ _ hcap0
  exact ⟨get_or_insert_fst_of_hit _ _ _ _ hfront, hfront⟩

/-- Witness for C8: two calls with an empty layout on area (0,0,1,1)
starting from an uninitialized thread state. -/
theorem split_with_spacers_memoized_witness :
    (l_empty.split_with_spacers solve0 area1
        (some (l_empty.split_with_spacers solve0 area1 none).2)).1
      = (l_empty.split_with_spacers solve0 area1 none).1
    ∧ assocGet (l_empty.split_with_spacers solve0 area1 none).2.entries
        (area1, l_empty)
      = some (l_empty.split_with_spacers solve0 area1 none).1 :=
  split_with_spacers_memoized l_empty solve0 area1 none
    (fun _ h => nomatch h)

end Ratatui
